import Mathlib

/-!
Verification development for the `ai-commit-reporter` repository.

The repository consists of a small OpenAI wrapper module (`generateMessage`)
and a batch report generator (`main`) that validates a date window, fetches
commits from git, groups them by UTC calendar day, summarizes each commit via
the wrapper, assembles a Markdown report per day and writes one file per day.

This file gives a shallow embedding of those functions.  External
collaborators (git, the OpenAI API, the file system, the interactive prompt)
are modelled as explicit environments passed to the embedded functions; all
embedded functions are total, so a thrown JS exception is represented as an
`Except.error` value and a caught exception as the corresponding branch of the
embedding.
-/

namespace AICommitReporter

/-! ## Calendar arithmetic

JS `Date` stores a timestamp in milliseconds since the Unix epoch.  Parsing a
`YYYY-MM-DD` string yields UTC midnight of that calendar day; comparisons
compare timestamps.  We model a parsed calendar date by its components and
convert to a day number with the standard civil-calendar algorithm.  The
process is assumed to run with a UTC local timezone, so `getMonth`/`setMonth`
act on the same components that were parsed.
-/

/-- A calendar date as entered by the operator (`YYYY-MM-DD`, already
format-checked by the interactive prompt). -/
structure CalDate where
  y : Int
  m : Nat
  d : Nat
deriving DecidableEq

/-- A calendar date whose components denote an actual day of the proleptic
Gregorian calendar (what the prompt's `isNaN(date.getTime())` check admits
for in-range components). -/
def isLeap (y : Int) : Bool :=
  y % 4 == 0 && (y % 100 != 0 || y % 400 == 0)

def daysInMonth (y : Int) (m : Nat) : Nat :=
  if m == 2 then (if isLeap y then 29 else 28)
  else if m == 4 || m == 6 || m == 9 || m == 11 then 30
  else 31

def validDate (c : CalDate) : Prop :=
  1 ≤ c.m ∧ c.m ≤ 12 ∧ 1 ≤ c.d ∧ c.d ≤ daysInMonth c.y c.m

instance (c : CalDate) : Decidable (validDate c) := by
  unfold validDate; infer_instance

/-- Days since the Unix epoch of a civil date (standard civil-from-days
inverse; the day-number scale underlying the JS `Date` time value). -/
def daysFromCivil (y : Int) (m : Nat) (d : Nat) : Int :=
  let yAdj : Int := if m ≤ 2 then y - 1 else y
  let era : Int := yAdj.fdiv 400
  let yoe : Nat := (yAdj - era * 400).toNat
  let mp : Nat := if 2 < m then m - 3 else m + 9
  let doy : Nat := (153 * mp + 2) / 5 + d - 1
  let doe : Nat := yoe * 365 + yoe / 4 - yoe / 100 + doy
  era * 146097 + (doe : Int) - 719468

/-- Civil date of a day number (standard civil-from-days algorithm, the one
`Date.prototype.toISOString` realizes for the date components). -/
def civilFromDays (z : Int) : Int × Nat × Nat :=
  let zs : Int := z + 719468
  let era : Int := zs.fdiv 146097
  let doe : Nat := (zs - era * 146097).toNat
  let yoe : Nat := (doe - doe / 1460 + doe / 36524 - doe / 146096) / 365
  let y : Int := (yoe : Int) + era * 400
  let doy : Nat := doe - (365 * yoe + yoe / 4 - yoe / 100)
  let mp : Nat := (5 * doy + 2) / 153
  let d : Nat := doy - (153 * mp + 2) / 5 + 1
  let m : Nat := if mp < 10 then mp + 3 else mp - 9
  (if m ≤ 2 then y + 1 else y, m, d)

/-- Timestamp (in days) of the UTC midnight that `new Date('YYYY-MM-DD')`
parses to. -/
def dateDays (c : CalDate) : Int :=
  daysFromCivil c.y c.m c.d

/-- `twoMonthsLater` of the source: `new Date(startDate)` followed by
`setMonth(getMonth() + 2)`.  JS `setMonth` keeps the day-of-month and lets a
day past the target month's end roll over into the following month
(`MakeDay` semantics): the resulting time value is day 1 of the target month
plus `(day - 1)` days. -/
def jsCapDays (c : CalDate) : Int :=
  let m0 : Nat := c.m - 1 + 2
  let y : Int := c.y + (m0 / 12 : Nat)
  let m : Nat := m0 % 12 + 1
  daysFromCivil y m 1 + ((c.d - 1 : Nat) : Int)

/-- Modelled from the spec: the two-month cap computed "by month arithmetic
with month-end adjustment per standard calendar rules", i.e. the day-of-month
is clamped to the target month's last day (start Jan 31 + 2 months lands on a
month-end-adjusted date).  This is the comparator for the refinement claim
about the range cap; the source itself uses `jsCapDays`. -/
def clampedCapDays (c : CalDate) : Int :=
  let m0 : Nat := c.m - 1 + 2
  let y : Int := c.y + (m0 / 12 : Nat)
  let m : Nat := m0 % 12 + 1
  daysFromCivil y m (min c.d (daysInMonth y m))

/-- The two fatal validation outcomes of the source (`시작 날짜가 종료 날짜보다
늦습니다.` and `조회 기간은 최대 두 달을 넘을 수 없습니다...`). -/
inductive RangeError where
  | invalidRange
  | rangeTooLarge
deriving DecidableEq

/-- The date-window validation of `main`:
`if (startDate > endDate) ... if (endDate > twoMonthsLater) ...`. -/
def validateRange (s e : CalDate) : Option RangeError :=
  if dateDays e < dateDays s then some .invalidRange
  else if jsCapDays s < dateDays e then some .rangeTooLarge
  else none

/-! ## UTC ISO-8601 rendering

`new Date(commit.date).toISOString()` renders the timestamp as
`YYYY-MM-DDTHH:mm:ss.sssZ` with zero-padded fields (faithful for years
0..9999, the 4-digit range; git timestamps fall in it).  The grouping key of
the source is `toISOString().split('T')[0]`, the date component. -/

def digitChar (n : Nat) : Char :=
  Char.ofNat (48 + n % 10)

def pad2 (n : Nat) : String :=
  ⟨[digitChar (n / 10), digitChar n]⟩

def pad3 (n : Nat) : String :=
  ⟨[digitChar (n / 100), digitChar (n / 10), digitChar n]⟩

def pad4 (n : Nat) : String :=
  ⟨[digitChar (n / 1000), digitChar (n / 100), digitChar (n / 10), digitChar n]⟩

/-- The date component `YYYY-MM-DD` of the UTC ISO rendering of a day
number. -/
def dateStrOfDays (z : Int) : String :=
  let c := civilFromDays z
  pad4 c.1.toNat ++ "-" ++ pad2 c.2.1 ++ "-" ++ pad2 c.2.2

/-- `Date.prototype.toISOString` on a timestamp in milliseconds. -/
def jsToISOString (ms : Int) : String :=
  let z : Int := ms.fdiv 86400000
  let rem : Nat := (ms - z * 86400000).toNat
  dateStrOfDays z ++ "T" ++ pad2 (rem / 3600000) ++ ":" ++ pad2 (rem / 60000 % 60)
    ++ ":" ++ pad2 (rem / 1000 % 60) ++ "." ++ pad3 (rem % 1000) ++ "Z"

/-- First `n` characters of a string (JS `substring(0, n)`, and the prefix
`split('T')[0]` denotes when it has length `n`). -/
def takeChars (n : Nat) (s : String) : String :=
  ⟨s.data.take n⟩

/-- Timestamps whose UTC year has four digits, the range on which
`jsToISOString` is a faithful model of `toISOString`. -/
def msInRange (ms : Int) : Prop :=
  -62167219200000 ≤ ms ∧ ms < 253402300800000

instance (ms : Int) : Decidable (msInRange ms) := by
  unfold msInRange; infer_instance

/-! ## The OpenAI wrapper `generateMessage` (src `gpt.js`)

`prompt` is an arbitrary JS value; the code rejects missing / non-string /
empty-string prompts (`!prompt || typeof prompt !== 'string'`).  The API key
is an optional environment string, falsy when unset or empty.  The network
request either throws (modelled `Except.error`) or produces an optional
`content` string (`completion?.choices?.[0]?.message?.content`). -/

/-- JS `String.prototype.trim`: drop leading and trailing whitespace
characters (executable model of the library `trim`, structurally recursive so
that concrete instances evaluate in the kernel). -/
def jsTrim (s : String) : String :=
  ⟨((s.data.dropWhile Char.isWhitespace).reverse.dropWhile Char.isWhitespace).reverse⟩

inductive PromptV where
  | missing
  | nonString
  | str (s : String)
deriving DecidableEq

deriving instance DecidableEq for Except

def promptBad : PromptV → Bool
  | .missing => true
  | .nonString => true
  | .str s => s == ""

def keyBad : Option String → Bool
  | none => true
  | some s => s == ""

def generateMessage (prompt : PromptV) (apiKey : Option String)
    (req : Except String (Option String)) : Except String String :=
  if promptBad prompt then .error "prompt는 문자열이어야 합니다."
  else if keyBad apiKey then .error "환경변수 OPENAI_API_KEY가 설정되어 있지 않습니다."
  else
    match req with
    | .error e => .error e
    | .ok content =>
      match content with
      | none => .error "모델이 유효한 응답을 반환하지 않았습니다."
      | some c =>
        let text := jsTrim c
        if text == "" then .error "모델이 유효한 응답을 반환하지 않았습니다."
        else .ok text

/-! ## The batch report generator `main`

Data model: one record per commit as produced by `git.log` with the custom
format (`%H %ai %s %an %ae`).  The `date` field is modelled by the epoch
millisecond timestamp that `new Date(commit.date)` parses it to. -/

structure CommitRecord where
  hash : String
  dateMs : Int
  message : String
  author_name : String
  author_email : String
deriving DecidableEq

/-- The grouping key of a commit:
`new Date(commit.date).toISOString().split('T')[0]`, i.e. the `YYYY-MM-DD`
date component of the UTC ISO rendering of the timestamp. -/
def dateKey (c : CommitRecord) : String :=
  dateStrOfDays (c.dateMs.fdiv 86400000)

/-- The grouping map `commitsByDate`: a JS object with non-index string keys,
i.e. an insertion-ordered association of calendar date to commit list.
`insertGrouped` performs `commitsByDate[commitDate].push(commit)`, creating
the bucket at the end of the map on first sight of its key. -/
def insertGrouped (g : List (String × List CommitRecord)) (k : String)
    (c : CommitRecord) : List (String × List CommitRecord) :=
  match g with
  | [] => [(k, [c])]
  | (k', l) :: rest =>
    if k' = k then (k', l ++ [c]) :: rest else (k', l) :: insertGrouped rest k c

/-- The grouping loop `for (const commit of commits.all) ...`. -/
def groupByDate (cs : List CommitRecord) : List (String × List CommitRecord) :=
  cs.foldl (fun g c => insertGrouped g (dateKey c) c) []

/-- Content of a bucket by key (`commitsByDate[k]`). -/
def bucketFor (g : List (String × List CommitRecord)) (k : String) :
    Option (List CommitRecord) :=
  (g.find? (fun b => b.1 == k)).map Prod.snd

/-! ### Per-commit summarization and report assembly -/

/-- Per-commit collaborator outcomes: the result of the
`git.show([...])` call, and of the OpenAI request performed inside
`generateMessage` (`Except.error` = the call threw, `Except.ok content` = a
completion whose first choice carried the given optional text). -/
structure CommitEnv where
  showRes : Except String String
  genRes : Except String (Option String)
deriving DecidableEq

/-- The fixed instruction prefix prepended to the `git show` blob. -/
def promptPrefix : String :=
  "아래 커밋 메시지와 변경사항을 분석해서 무엇을 했는지 간결하게 설명해줘:\n\n"

/-- The summarization of one commit inside the try-block of the per-commit
loop: fetch the show blob, then call `generateMessage` on the instruction
prefix plus the blob.  A failure of either collaborator surfaces as the
`Except.error` carrying the message of the thrown error. -/
def summarizeCommit (apiKey : Option String) (e : CommitEnv) :
    Except String String :=
  match e.showRes with
  | .error msg => .error msg
  | .ok showResult => generateMessage (.str (promptPrefix ++ showResult)) apiKey e.genRes

/-- JS `hash.substring(0, 7)`: the 7-character abbreviated hash. -/
def hash7 (h : String) : String :=
  takeChars 7 h

/-- The report block appended for a successfully summarized commit
(`## 커밋 i+1: hash7`, the subject line, the AI summary, a horizontal
separator). -/
def okEntry (i : Nat) (c : CommitRecord) (summary : String) : String :=
  "## 커밋 " ++ toString (i + 1) ++ ": " ++ hash7 c.hash ++ "\n"
    ++ "**메시지**: " ++ c.message ++ "\n\n"
    ++ "### AI 요약\n" ++ summary ++ "\n\n"
    ++ "---\n\n"

/-- The report block appended in the catch-branch for a failed commit
(`## 커밋 i+1: hash7 (오류 발생)` and the error message; the code appends
neither the subject line nor a separator here). -/
def errEntry (i : Nat) (c : CommitRecord) (msg : String) : String :=
  "## 커밋 " ++ toString (i + 1) ++ ": " ++ hash7 c.hash ++ " (오류 발생)\n"
    ++ "**오류**: " ++ msg ++ "\n\n"

/-- One iteration of the per-commit loop: the block appended to
`dailyReport`, paired with whether the catch-branch (error marking) was
taken. -/
def processCommitEntry (apiKey : Option String) (i : Nat) (c : CommitRecord)
    (e : CommitEnv) : String × Bool :=
  match summarizeCommit apiKey e with
  | .ok s => (okEntry i c s, false)
  | .error m => (errEntry i c m, true)

/-- Whether summarization of a commit fails in the given environment. -/
def commitFails (apiKey : Option String) (e : CommitEnv) : Bool :=
  match summarizeCommit apiKey e with
  | .ok _ => false
  | .error _ => true

/-- The title and count lines of a day's report. -/
def dayHeader (date : String) (n : Nat) : String :=
  "# " ++ date ++ " 커밋 리포트\n\n" ++ "총 " ++ toString n ++ "개의 커밋\n\n"

/-- The indexed sequence of per-commit blocks of one day bucket
(`for (let i = 0; i < dateCommits.length; i++)`), with the error flag of
each block. -/
def dayEntries (apiKey : Option String) (cs : List CommitRecord)
    (envOf : CommitRecord → CommitEnv) : List (String × Bool) :=
  cs.enum.map (fun ic => processCommitEntry apiKey ic.1 ic.2 (envOf ic.2))

/-- The complete `dailyReport` string assembled for one day bucket. -/
def processDay (apiKey : Option String) (date : String) (cs : List CommitRecord)
    (envOf : CommitRecord → CommitEnv) : String :=
  dayHeader date cs.length ++ String.join ((dayEntries apiKey cs envOf).map Prod.fst)

/-- The Summarizer prompts sent while processing one day bucket: one
`generateMessage` invocation per commit whose `git.show` succeeded. -/
def dayCalls (cs : List CommitRecord) (envOf : CommitRecord → CommitEnv) :
    List String :=
  cs.filterMap (fun c =>
    match (envOf c).showRes with
    | .ok showResult => some (promptPrefix ++ showResult)
    | .error _ => none)

/-! ### Persistence -/

/-- The flat-file state of the output directory: file path to content. -/
abbrev FS : Type := List (String × String)

/-- `fs.writeFileSync`: create the file or replace the content of an
existing file of the same path. -/
def fsWrite (fs : FS) (p content : String) : FS :=
  match fs with
  | [] => [(p, content)]
  | (q, old) :: rest =>
    if q = p then (q, content) :: rest else (q, old) :: fsWrite rest p content

/-- Content of a file, if present. -/
def fsRead (fs : FS) (p : String) : Option String :=
  ((fs.find? (fun f => f.1 == p)) : Option (String × String)).map Prod.snd

/-- `commit-report-<calendarDate>.md`. -/
def fileNameOf (date : String) : String :=
  "commit-report-" ++ date ++ ".md"

/-- `path.join(answers.gitPath, fileName)` for a plain directory path. -/
def pathJoin (dir name : String) : String :=
  dir ++ "/" ++ name

/-- One iteration of the per-date loop after assembly: the attempted write
of the day's report (`ok` is the outcome of `fs.writeFileSync`; on failure
the error is logged and the loop continues). -/
structure WriteAttempt where
  date : String
  path : String
  body : String
  ok : Bool
deriving DecidableEq

/-- Collaborator environment of one run of `main`: the API key in the
process environment, the outcome of the initial `git.log` call, the
per-commit collaborator outcomes, and which file paths `writeFileSync`
succeeds on. -/
structure RunEnv where
  apiKey : Option String
  commits : Except String (List CommitRecord)
  commitEnv : CommitRecord → CommitEnv
  writeOk : String → Bool

/-- The write attempt of one day bucket. -/
def mkAttempt (gitPath : String) (env : RunEnv) (b : String × List CommitRecord) :
    WriteAttempt :=
  let body := processDay env.apiKey b.1 b.2 env.commitEnv
  let p := pathJoin gitPath (fileNameOf b.1)
  ⟨b.1, p, body, env.writeOk p⟩

/-- Apply the successful writes of the per-date loop to the file system. -/
def applyWrites (fs : FS) (l : List WriteAttempt) : FS :=
  l.foldl (fun acc a => if a.ok then fsWrite acc a.path a.body else acc) fs

/-- Terminal outcome of a run: the two fatal validation errors, a fatal
`git.log` failure (caught by the outer catch), the successful
`지정된 기간에 커밋이 없습니다.` nothing-to-do exit, or completion of the
per-date loop (`==== 모든 처리 완료 ====`). -/
inductive Outcome where
  | invalidRange
  | rangeTooLarge
  | fetchFailed (msg : String)
  | noCommits
  | completed
deriving DecidableEq

/-- Observable result of a run of `main`: the terminal outcome, whether the
`git.log` fetch was reached, the Summarizer prompts sent, the per-date write
attempts in processing order, and the resulting file-system state. -/
structure RunOutput where
  outcome : Outcome
  fetched : Bool
  calls : List String
  writes : List WriteAttempt
  fs : FS
deriving DecidableEq

/-- The batch report generator `main`, from prompt answers (repository path
and validated date strings, optional author filter) and the collaborator
environment to the observable result.  The author filter only shapes the
`git.log` invocation whose outcome `env.commits` already records. -/
def main (gitPath : String) (s e : CalDate) (author : Option String)
    (env : RunEnv) (fs0 : FS) : RunOutput :=
  match validateRange s e with
  | some .invalidRange => ⟨.invalidRange, false, [], [], fs0⟩
  | some .rangeTooLarge => ⟨.rangeTooLarge, false, [], [], fs0⟩
  | none =>
    match env.commits with
    | .error msg => ⟨.fetchFailed msg, true, [], [], fs0⟩
    | .ok cs =>
      if cs.isEmpty then ⟨.noCommits, true, [], [], fs0⟩
      else
        let bs := groupByDate cs
        let ws := bs.map (mkAttempt gitPath env)
        ⟨.completed, true, (bs.map (fun b => dayCalls b.2 env.commitEnv)).flatten,
          ws, applyWrites fs0 ws⟩

/-! ## Lemmas about the grouping map -/

/-- The keys of the grouping map, in insertion order. -/
def keysOf (g : List (String × List CommitRecord)) : List String :=
  g.map Prod.fst

/-- Order of first occurrence: the sublist of keys not yet seen, each kept at
its first occurrence. -/
def firstOcc : List String → List String → List String
  | _, [] => []
  | seen, k :: ks =>
    if k ∈ seen then firstOcc seen ks else k :: firstOcc (seen ++ [k]) ks

theorem sum_len_insertGrouped (g : List (String × List CommitRecord))
    (k : String) (c : CommitRecord) :
    ((insertGrouped g k c).map (fun b => b.2.length)).sum
      = (g.map (fun b => b.2.length)).sum + 1 := by
  induction g with
  | nil => simp [insertGrouped]
  | cons b rest ih =>
    obtain ⟨k', l⟩ := b
    by_cases h : k' = k
    · simp [insertGrouped, h]; omega
    · simp [insertGrouped, h, ih]; omega

theorem sum_len_groupAux (cs : List CommitRecord) :
    ∀ g : List (String × List CommitRecord),
      (((cs.foldl (fun g c => insertGrouped g (dateKey c) c) g)).map
          (fun b => b.2.length)).sum
        = (g.map (fun b => b.2.length)).sum + cs.length := by
  induction cs with
  | nil => intro g; simp
  | cons c rest ih =>
    intro g
    simp only [List.foldl_cons, ih, sum_len_insertGrouped, List.length_cons]
    omega

theorem sum_len_groupByDate (cs : List CommitRecord) :
    ((groupByDate cs).map (fun b => b.2.length)).sum = cs.length := by
  simpa using sum_len_groupAux cs []

theorem sum_countP_insertGrouped (p : CommitRecord → Bool)
    (g : List (String × List CommitRecord)) (k : String) (c : CommitRecord) :
    ((insertGrouped g k c).map (fun b => (b.2.filter p).length)).sum
      = (g.map (fun b => (b.2.filter p).length)).sum
        + (if p c then 1 else 0) := by
  induction g with
  | nil =>
    by_cases hpc : p c <;> simp [insertGrouped, List.filter_cons, hpc]
  | cons b rest ih =>
    obtain ⟨k', l⟩ := b
    by_cases h : k' = k
    · by_cases hpc : p c <;>
        simp [insertGrouped, h, List.filter_append, List.filter_cons, hpc] <;>
        omega
    · simp [insertGrouped, h, ih]; omega

theorem sum_countP_groupAux (p : CommitRecord → Bool) (cs : List CommitRecord) :
    ∀ g : List (String × List CommitRecord),
      (((cs.foldl (fun g c => insertGrouped g (dateKey c) c) g)).map
          (fun b => (b.2.filter p).length)).sum
        = (g.map (fun b => (b.2.filter p).length)).sum
          + (cs.filter p).length := by
  induction cs with
  | nil => intro g; simp
  | cons c rest ih =>
    intro g
    simp only [List.foldl_cons, ih, sum_countP_insertGrouped]
    by_cases h : p c <;> simp [h, List.filter_cons] <;> omega

theorem sum_countP_groupByDate (p : CommitRecord → Bool) (cs : List CommitRecord) :
    ((groupByDate cs).map (fun b => (b.2.filter p).length)).sum
      = (cs.filter p).length := by
  simpa using sum_countP_groupAux p cs []

theorem insertGrouped_nonempty (g : List (String × List CommitRecord))
    (k : String) (c : CommitRecord) (h : ∀ b ∈ g, b.2 ≠ []) :
    ∀ b ∈ insertGrouped g k c, b.2 ≠ [] := by
  induction g with
  | nil =>
    intro b hb
    simp [insertGrouped] at hb
    simp [hb]
  | cons hd rest ih =>
    obtain ⟨k', l⟩ := hd
    intro b hb
    by_cases hk : k' = k
    · simp [insertGrouped, hk] at hb
      rcases hb with hb | hb
      · simp [hb]
      · exact h b (List.mem_cons_of_mem _ hb)
    · simp only [insertGrouped, if_neg hk, List.mem_cons] at hb
      rcases hb with hb | hb
      · exact hb ▸ h ⟨k', l⟩ (List.mem_cons_self _ _)
      · exact ih (fun b hb => h b (List.mem_cons_of_mem _ hb)) b hb

theorem groupAux_nonempty (cs : List CommitRecord) :
    ∀ g : List (String × List CommitRecord), (∀ b ∈ g, b.2 ≠ []) →
      ∀ b ∈ cs.foldl (fun g c => insertGrouped g (dateKey c) c) g, b.2 ≠ [] := by
  induction cs with
  | nil => intro g hg; simpa using hg
  | cons c rest ih =>
    intro g hg
    exact ih _ (insertGrouped_nonempty g (dateKey c) c hg)

theorem groupByDate_nonempty (cs : List CommitRecord) :
    ∀ b ∈ groupByDate cs, b.2 ≠ [] :=
  groupAux_nonempty cs [] (by simp)

theorem keysOf_insertGrouped (g : List (String × List CommitRecord))
    (k : String) (c : CommitRecord) :
    keysOf (insertGrouped g k c)
      = if k ∈ keysOf g then keysOf g else keysOf g ++ [k] := by
  induction g with
  | nil => simp [insertGrouped, keysOf]
  | cons hd rest ih =>
    obtain ⟨k', l⟩ := hd
    by_cases hk : k' = k
    · simp [insertGrouped, hk, keysOf]
    · simp only [insertGrouped, if_neg hk, keysOf, List.map_cons] at ih ⊢
      by_cases hm : k ∈ keysOf rest
      · simp [keysOf] at hm
        simp [hm, ih, Ne.symm hk]
      · simp [keysOf] at hm
        simp [hm, ih, Ne.symm hk]

theorem keysOf_groupAux (cs : List CommitRecord) :
    ∀ g : List (String × List CommitRecord),
      keysOf (cs.foldl (fun g c => insertGrouped g (dateKey c) c) g)
        = keysOf g ++ firstOcc (keysOf g) (cs.map dateKey) := by
  induction cs with
  | nil => intro g; simp [firstOcc]
  | cons c rest ih =>
    intro g
    simp only [List.foldl_cons, List.map_cons, firstOcc]
    by_cases hm : dateKey c ∈ keysOf g
    · rw [ih, keysOf_insertGrouped, if_pos hm, if_pos hm]
    · rw [ih, keysOf_insertGrouped, if_neg hm, if_neg hm, List.append_assoc]
      rfl

theorem keysOf_groupByDate (cs : List CommitRecord) :
    keysOf (groupByDate cs) = firstOcc [] (cs.map dateKey) := by
  simpa using keysOf_groupAux cs []

theorem keysOf_groupByDate_nodup (cs : List CommitRecord) :
    (keysOf (groupByDate cs)).Nodup := by
  have step : ∀ (g : List (String × List CommitRecord)) (k : String)
      (c : CommitRecord), (keysOf g).Nodup → (keysOf (insertGrouped g k c)).Nodup := by
    intro g k c h
    rw [keysOf_insertGrouped]
    by_cases hm : k ∈ keysOf g
    · simpa [hm] using h
    · rw [if_neg hm, List.nodup_append]
      refine ⟨h, List.nodup_singleton k, ?_⟩
      intro a ha hb
      simp at hb
      exact hm (hb ▸ ha)
  have aux : ∀ (l : List CommitRecord) (g : List (String × List CommitRecord)),
      (keysOf g).Nodup →
      (keysOf (l.foldl (fun g c => insertGrouped g (dateKey c) c) g)).Nodup := by
    intro l
    induction l with
    | nil => intro g hg; simpa using hg
    | cons c rest ih => intro g hg; exact ih _ (step g (dateKey c) c hg)
  simpa using aux cs [] (by simp [keysOf])

theorem bucketFor_insertGrouped_self (g : List (String × List CommitRecord))
    (k : String) (c : CommitRecord) :
    bucketFor (insertGrouped g k c) k = some ((bucketFor g k).getD [] ++ [c]) := by
  induction g with
  | nil => simp [insertGrouped, bucketFor]
  | cons hd rest ih =>
    obtain ⟨k', l⟩ := hd
    by_cases hk : k' = k
    · subst hk
      simp [insertGrouped, bucketFor, List.find?]
    · simp only [insertGrouped, if_neg hk]
      simp only [bucketFor, List.find?] at ih ⊢
      have : (k' == k) = false := by simpa using hk
      simp [this, ih]

theorem bucketFor_insertGrouped_other (g : List (String × List CommitRecord))
    (k k' : String) (c : CommitRecord) (h : k' ≠ k) :
    bucketFor (insertGrouped g k' c) k = bucketFor g k := by
  induction g with
  | nil =>
    have hb : (k' == k) = false := by simpa using h
    simp [insertGrouped, bucketFor, List.find?, hb]
  | cons hd rest ih =>
    obtain ⟨k'', l⟩ := hd
    by_cases hk : k'' = k'
    · subst hk
      have : (k'' == k) = false := by simpa using h
      simp [insertGrouped, bucketFor, List.find?, this]
    · simp only [insertGrouped, if_neg hk]
      simp only [bucketFor, List.find?] at ih ⊢
      by_cases h2 : k'' = k
      · simp [h2]
      · have : (k'' == k) = false := by simpa using h2
        simp [this, ih]

theorem bucketFor_groupAux (cs : List CommitRecord) (k : String) :
    ∀ g : List (String × List CommitRecord),
      bucketFor (cs.foldl (fun g c => insertGrouped g (dateKey c) c) g) k
        = if bucketFor g k = none ∧ cs.filter (fun c => dateKey c = k) = []
          then none
          else some ((bucketFor g k).getD []
            ++ cs.filter (fun c => dateKey c = k)) := by
  induction cs with
  | nil =>
    intro g
    cases h : bucketFor g k <;> simp [h]
  | cons c rest ih =>
    intro g
    by_cases hk : dateKey c = k
    · simp only [List.foldl_cons, ih, bucketFor_insertGrouped_self, hk,
        List.filter_cons, if_pos (by simpa using hk)]
      simp [hk, List.append_assoc]
    · simp only [List.foldl_cons, ih, bucketFor_insertGrouped_other _ _ _ _ hk,
        List.filter_cons]
      simp [hk]

theorem bucketFor_groupByDate (cs : List CommitRecord) (k : String) :
    bucketFor (groupByDate cs) k
      = if cs.filter (fun c => dateKey c = k) = [] then none
        else some (cs.filter (fun c => dateKey c = k)) := by
  have h := bucketFor_groupAux cs k []
  simp only [groupByDate]
  rw [h]
  simp [bucketFor]

/-! ## Lemmas about per-day entries -/

theorem processCommitEntry_snd (apiKey : Option String) (i : Nat)
    (c : CommitRecord) (e : CommitEnv) :
    (processCommitEntry apiKey i c e).2 = commitFails apiKey e := by
  unfold processCommitEntry commitFails
  cases summarizeCommit apiKey e <;> rfl

theorem dayEntries_length (apiKey : Option String) (cs : List CommitRecord)
    (envOf : CommitRecord → CommitEnv) :
    (dayEntries apiKey cs envOf).length = cs.length := by
  simp [dayEntries]

theorem dayEntries_enumFrom_err_count (apiKey : Option String)
    (envOf : CommitRecord → CommitEnv) (cs : List CommitRecord) :
    ∀ n : Nat,
      (((cs.enumFrom n).map
          (fun ic => processCommitEntry apiKey ic.1 ic.2 (envOf ic.2))).filter
          (fun b => b.2)).length
        = (cs.filter (fun c => commitFails apiKey (envOf c))).length := by
  induction cs with
  | nil => intro n; simp
  | cons c rest ih =>
    intro n
    simp only [List.enumFrom, List.map_cons, List.filter_cons,
      processCommitEntry_snd]
    by_cases h : commitFails apiKey (envOf c) <;> simp [h, ih]

theorem dayEntries_err_count (apiKey : Option String) (cs : List CommitRecord)
    (envOf : CommitRecord → CommitEnv) :
    ((dayEntries apiKey cs envOf).filter (fun b => b.2)).length
      = (cs.filter (fun c => commitFails apiKey (envOf c))).length := by
  simpa [dayEntries, List.enum] using
    dayEntries_enumFrom_err_count apiKey envOf cs 0

theorem dayEntries_enumFrom_ok_count (apiKey : Option String)
    (envOf : CommitRecord → CommitEnv) (cs : List CommitRecord) :
    ∀ n : Nat,
      (((cs.enumFrom n).map
          (fun ic => processCommitEntry apiKey ic.1 ic.2 (envOf ic.2))).filter
          (fun b => !b.2)).length
        = (cs.filter (fun c => !commitFails apiKey (envOf c))).length := by
  induction cs with
  | nil => intro n; simp
  | cons c rest ih =>
    intro n
    simp only [List.enumFrom, List.map_cons, List.filter_cons,
      processCommitEntry_snd]
    by_cases h : commitFails apiKey (envOf c) <;> simp [h, ih]

theorem dayEntries_ok_count (apiKey : Option String) (cs : List CommitRecord)
    (envOf : CommitRecord → CommitEnv) :
    ((dayEntries apiKey cs envOf).filter (fun b => !b.2)).length
      = (cs.filter (fun c => !commitFails apiKey (envOf c))).length := by
  simpa [dayEntries, List.enum] using
    dayEntries_enumFrom_ok_count apiKey envOf cs 0

theorem filter_not_length {α : Type} (p : α → Bool) (l : List α) :
    (l.filter p).length + (l.filter (fun a => !p a)).length = l.length := by
  induction l with
  | nil => simp
  | cons a t ih =>
    by_cases h : p a <;> simp [List.filter_cons, h] <;> omega

/-! ## Lemmas about strings -/

theorem string_data_mk (l : List Char) : (⟨l⟩ : String).data = l := rfl

theorem string_eq_of_data {a b : String} (h : a.data = b.data) : a = b := by
  cases a; cases b; cases h; rfl

theorem takeChars_append_of_length (a b : String) (n : Nat)
    (h : a.data.length = n) : takeChars n (a ++ b) = a := by
  apply string_eq_of_data
  rw [takeChars, string_data_mk, String.data_append, ← h, List.take_left]

theorem dateStrOfDays_data_length (z : Int) : (dateStrOfDays z).data.length = 10 := by
  unfold dateStrOfDays pad4 pad2
  simp [String.data_append]

theorem takeChars_jsToISOString (ms : Int) :
    takeChars 10 (jsToISOString ms) = dateStrOfDays (ms.fdiv 86400000) := by
  unfold jsToISOString
  rw [show ∀ a b c d e f g h i j : String,
      a ++ b ++ c ++ d ++ e ++ f ++ g ++ h ++ i ++ j
        = a ++ (b ++ c ++ d ++ e ++ f ++ g ++ h ++ i ++ j) by
    intro a b c d e f g h i j
    apply string_eq_of_data
    simp [String.data_append]]
  exact takeChars_append_of_length _ _ _ (dateStrOfDays_data_length _)

/-! ## Lemmas about the file-system model -/

theorem fsRead_fsWrite_self (fs : FS) (p content : String) :
    fsRead (fsWrite fs p content) p = some content := by
  induction fs with
  | nil => simp [fsWrite, fsRead, List.find?]
  | cons f rest ih =>
    obtain ⟨q, old⟩ := f
    by_cases h : q = p
    · simp [fsWrite, h, fsRead, List.find?]
    · have hb : (q == p) = false := by simpa using h
      simp [fsWrite, h, fsRead, List.find?, hb] at ih ⊢
      exact ih

theorem fsRead_fsWrite_other (fs : FS) (p q content : String) (h : q ≠ p) :
    fsRead (fsWrite fs q content) p = fsRead fs p := by
  induction fs with
  | nil =>
    have hb : (q == p) = false := by simpa using h
    simp [fsWrite, fsRead, List.find?, hb]
  | cons f rest ih =>
    obtain ⟨r, old⟩ := f
    by_cases hr : r = q
    · subst hr
      have hb : (r == p) = false := by simpa using h
      simp [fsWrite, fsRead, List.find?, hb]
    · simp only [fsWrite, if_neg hr]
      by_cases hp : r = p
      · simp [fsRead, List.find?, hp]
      · have hb : (r == p) = false := by simpa using hp
        simp [fsRead, List.find?, hb] at ih ⊢
        exact ih

theorem applyWrites_read_of_not_mem (l : List WriteAttempt) :
    ∀ (fs : FS) (p : String), (∀ a ∈ l, a.path ≠ p) →
      fsRead (applyWrites fs l) p = fsRead fs p := by
  induction l with
  | nil => intro fs p _; rfl
  | cons a rest ih =>
    intro fs p h
    have ha : a.path ≠ p := h a (List.mem_cons_self _ _)
    have hrest : ∀ b ∈ rest, b.path ≠ p :=
      fun b hb => h b (List.mem_cons_of_mem _ hb)
    simp only [applyWrites, List.foldl_cons]
    by_cases hok : a.ok
    · simp only [if_pos hok]
      rw [show (rest.foldl (fun acc b => if b.ok then fsWrite acc b.path b.body else acc)
          (fsWrite fs a.path a.body)) = applyWrites (fsWrite fs a.path a.body) rest from rfl,
        ih _ _ hrest, fsRead_fsWrite_other _ _ _ _ ha]
    · simp only [if_neg hok]
      exact ih _ _ hrest

theorem applyWrites_read_ok (l : List WriteAttempt) :
    ∀ fs : FS, (l.map (fun a => a.path)).Nodup →
      ∀ a ∈ l, a.ok = true → fsRead (applyWrites fs l) a.path = some a.body := by
  induction l with
  | nil => intro fs _ a ha; exact absurd ha (List.not_mem_nil a)
  | cons b rest ih =>
    intro fs hnd a ha hok
    simp only [List.map_cons, List.nodup_cons] at hnd
    rcases List.mem_cons.mp ha with rfl | hmem
    · simp only [applyWrites, List.foldl_cons, if_pos hok]
      rw [show (rest.foldl (fun acc b => if b.ok then fsWrite acc b.path b.body else acc)
          (fsWrite fs a.path a.body)) = applyWrites (fsWrite fs a.path a.body) rest from rfl]
      rw [applyWrites_read_of_not_mem rest _ _ ?_, fsRead_fsWrite_self]
      intro x hx hxa
      exact hnd.1 (hxa ▸ List.mem_map_of_mem (fun a => a.path) hx)
    · simp only [applyWrites, List.foldl_cons]
      by_cases hbok : b.ok <;> simp only [if_pos, if_neg, hbok]
      · exact ih _ hnd.2 a hmem hok
      · exact ih _ hnd.2 a hmem hok

/-! ## Lemmas about the calendar arithmetic -/

theorem daysFromCivil_day (y : Int) (m d : Nat) (hd : 1 ≤ d) :
    daysFromCivil y m d = daysFromCivil y m 1 + ((d - 1 : Nat) : Int) := by
  simp only [daysFromCivil]
  generalize (if m ≤ 2 then y - 1 else y) = yAdj
  generalize yAdj.fdiv 400 = era
  generalize (yAdj - era * 400).toNat = yoe
  generalize (if 2 < m then m - 3 else m + 9) = mp
  generalize (153 * mp + 2) / 5 = t
  omega

theorem one_le_daysInMonth (y : Int) (m : Nat) : 1 ≤ daysInMonth y m := by
  unfold daysInMonth
  split
  · split <;> omega
  · split <;> omega

theorem clampedCapDays_le_jsCapDays (c : CalDate) (h : validDate c) :
    clampedCapDays c ≤ jsCapDays c := by
  obtain ⟨h1, h2, h3, h4⟩ := h
  simp only [clampedCapDays, jsCapDays]
  have hdim := one_le_daysInMonth (c.y + ((c.m - 1 + 2) / 12 : Nat))
    ((c.m - 1 + 2) % 12 + 1)
  have hmin : 1 ≤ min c.d (daysInMonth (c.y + ((c.m - 1 + 2) / 12 : Nat))
      ((c.m - 1 + 2) % 12 + 1)) := by omega
  rw [daysFromCivil_day _ _ _ hmin]
  have hle : min c.d (daysInMonth (c.y + ((c.m - 1 + 2) / 12 : Nat))
      ((c.m - 1 + 2) % 12 + 1)) ≤ c.d := min_le_left _ _
  omega

theorem jsCapDays_eq_clamped_of_fits (c : CalDate)
    (h : c.d ≤ daysInMonth (c.y + ((c.m - 1 + 2) / 12 : Nat))
      ((c.m - 1 + 2) % 12 + 1)) (hd : 1 ≤ c.d) :
    jsCapDays c = clampedCapDays c := by
  simp only [clampedCapDays, jsCapDays]
  rw [show min c.d (daysInMonth (c.y + ((c.m - 1 + 2) / 12 : Nat))
      ((c.m - 1 + 2) % 12 + 1)) = c.d by omega]
  rw [daysFromCivil_day _ _ _ hd]

/-! ## Lemmas about file paths -/

theorem pathOf_inj (gitPath d1 d2 : String)
    (h : pathJoin gitPath (fileNameOf d1) = pathJoin gitPath (fileNameOf d2)) :
    d1 = d2 := by
  apply string_eq_of_data
  have hd := congrArg String.data h
  simp only [pathJoin, fileNameOf, String.data_append] at hd
  have h2 := List.append_cancel_left hd
  rw [List.append_assoc, List.append_assoc] at h2
  exact List.append_cancel_right (List.append_cancel_left h2)

theorem writes_paths_nodup (gitPath : String) (env : RunEnv)
    (cs : List CommitRecord) :
    (((groupByDate cs).map (mkAttempt gitPath env)).map
      (fun a => a.path)).Nodup := by
  have h1 : ((groupByDate cs).map (mkAttempt gitPath env)).map (fun a => a.path)
      = (keysOf (groupByDate cs)).map (fun d => pathJoin gitPath (fileNameOf d)) := by
    simp [keysOf, mkAttempt, Function.comp]
  rw [h1]
  exact (keysOf_groupByDate_nodup cs).map
    (fun d1 d2 hdd => pathOf_inj gitPath d1 d2 hdd)

/-! ## Infix and suffix facts about report entries -/

theorem okEntry_contains_message (i : Nat) (c : CommitRecord) (s : String) :
    c.message.data <:+: (okEntry i c s).data := by
  unfold okEntry
  simp only [String.data_append]
  refine ⟨("## 커밋 ".data ++ (toString (i + 1)).data ++ ": ".data
    ++ (hash7 c.hash).data ++ "\n".data ++ "**메시지**: ".data), ?_⟩
  exact ⟨"\n\n".data ++ "### AI 요약\n".data ++ s.data ++ "\n\n".data
    ++ "---\n\n".data, by simp⟩

theorem okEntry_contains_summary (i : Nat) (c : CommitRecord) (s : String) :
    s.data <:+: (okEntry i c s).data := by
  unfold okEntry
  simp only [String.data_append]
  refine ⟨("## 커밋 ".data ++ (toString (i + 1)).data ++ ": ".data
    ++ (hash7 c.hash).data ++ "\n".data ++ "**메시지**: ".data ++ c.message.data
    ++ "\n\n".data ++ "### AI 요약\n".data), ?_⟩
  exact ⟨"\n\n".data ++ "---\n\n".data, by simp⟩

theorem okEntry_contains_hash7 (i : Nat) (c : CommitRecord) (s : String) :
    (hash7 c.hash).data <:+: (okEntry i c s).data := by
  unfold okEntry
  simp only [String.data_append]
  refine ⟨("## 커밋 ".data ++ (toString (i + 1)).data ++ ": ".data), ?_⟩
  exact ⟨"\n".data ++ "**메시지**: ".data ++ c.message.data
    ++ "\n\n".data ++ "### AI 요약\n".data ++ s.data ++ "\n\n".data
    ++ "---\n\n".data, by simp⟩

theorem okEntry_separator_suffix (i : Nat) (c : CommitRecord) (s : String) :
    "---\n\n".data <:+ (okEntry i c s).data := by
  unfold okEntry
  simp only [String.data_append]
  exact ⟨("## 커밋 ".data ++ (toString (i + 1)).data ++ ": ".data
    ++ (hash7 c.hash).data ++ "\n".data ++ "**메시지**: ".data ++ c.message.data
    ++ "\n\n".data ++ "### AI 요약\n".data ++ s.data ++ "\n\n".data), by simp⟩

theorem errEntry_contains_marker (i : Nat) (c : CommitRecord) (m : String) :
    " (오류 발생)\n".data <:+: (errEntry i c m).data := by
  unfold errEntry
  simp only [String.data_append]
  refine ⟨("## 커밋 ".data ++ (toString (i + 1)).data ++ ": ".data
    ++ (hash7 c.hash).data), ?_⟩
  exact ⟨"**오류**: ".data ++ m.data ++ "\n\n".data, by simp⟩

theorem errEntry_contains_errmsg (i : Nat) (c : CommitRecord) (m : String) :
    m.data <:+: (errEntry i c m).data := by
  unfold errEntry
  simp only [String.data_append]
  refine ⟨("## 커밋 ".data ++ (toString (i + 1)).data ++ ": ".data
    ++ (hash7 c.hash).data ++ " (오류 발생)\n".data ++ "**오류**: ".data), ?_⟩
  exact ⟨"\n\n".data, by simp⟩

theorem errEntry_contains_hash7 (i : Nat) (c : CommitRecord) (m : String) :
    (hash7 c.hash).data <:+: (errEntry i c m).data := by
  unfold errEntry
  simp only [String.data_append]
  refine ⟨("## 커밋 ".data ++ (toString (i + 1)).data ++ ": ".data), ?_⟩
  exact ⟨" (오류 발생)\n".data ++ "**오류**: ".data ++ m.data ++ "\n\n".data, by simp⟩

/-! ## Run-level unfolding lemmas -/

theorem validateRange_none (s e : CalDate) (h1 : dateDays s ≤ dateDays e)
    (h2 : dateDays e ≤ jsCapDays s) : validateRange s e = none := by
  unfold validateRange
  rw [if_neg (by omega), if_neg (by omega)]

theorem main_completed (gitPath : String) (s e : CalDate) (author : Option String)
    (env : RunEnv) (fs0 : FS) (cs : List CommitRecord)
    (h1 : dateDays s ≤ dateDays e) (h2 : dateDays e ≤ jsCapDays s)
    (hc : env.commits = .ok cs) (hne : cs ≠ []) :
    main gitPath s e author env fs0 =
      ⟨.completed, true,
        ((groupByDate cs).map (fun b => dayCalls b.2 env.commitEnv)).flatten,
        (groupByDate cs).map (mkAttempt gitPath env),
        applyWrites fs0 ((groupByDate cs).map (mkAttempt gitPath env))⟩ := by
  unfold main
  rw [validateRange_none s e h1 h2, hc]
  have hempty : cs.isEmpty = false := by simpa using hne
  simp [hempty]

/-! ## Sample data for concrete witnesses -/

def sampleCommit : CommitRecord :=
  ⟨"0123456789abcdef0123456789abcdef01234567", 0, "initial commit",
    "홍길동", "hong@example.com"⟩

def sampleCommit2 : CommitRecord :=
  ⟨"89abcdef0123456789abcdef0123456789abcdef", 86400000, "second commit",
    "홍길동", "hong@example.com"⟩

def sampleCommit3 : CommitRecord :=
  ⟨"fedcba9876543210fedcba9876543210fedcba98", 90000000, "third commit",
    "홍길동", "hong@example.com"⟩

/-- A run environment over the three sample commits (log order: second day's
commit first): `git show` fails for `sampleCommit`, the Summarizer answers
`" summary "` otherwise, and `writeFileSync` fails exactly on the report path
of 1970-01-01. -/
def sampleEnv : RunEnv :=
  ⟨some "key", .ok [sampleCommit2, sampleCommit, sampleCommit3],
    fun c => if c = sampleCommit
      then ⟨.error "git show failed", .ok none⟩
      else ⟨.ok "diff text", .ok (some " summary ")⟩,
    fun p => p != pathJoin "/repo" (fileNameOf "1970-01-01")⟩

/-! ## Claims -/

/-- C3, counterexample: the claim requires `RangeTooLarge` for every window
whose end is more than two calendar months after the start under standard
month-end-adjusted month arithmetic.  For start 2023-12-31 the month-end
adjusted cap is 2024-02-29, so end 2024-03-01 exceeds it — yet the source
accepts this window, because JS `setMonth` lets Dec 31 + 2 months overflow to
2024-03-02 instead of clamping to the end of February. -/
theorem c3_counterexample :
    validateRange ⟨2023, 12, 31⟩ ⟨2024, 3, 1⟩ = none ∧
    clampedCapDays ⟨2023, 12, 31⟩ < dateDays ⟨2024, 3, 1⟩ ∧
    validDate ⟨2023, 12, 31⟩ ∧ validDate ⟨2024, 3, 1⟩ := by decide

/-- C3, amended: for chronologically ordered windows, validation fails with
`RangeTooLarge` exactly when the end lies beyond start-plus-two-months
computed with JS `setMonth` semantics (day-of-month kept, days past the
target month's end rolling over into the following month), and an end at or
before that cap is accepted.  The JS cap never precedes the month-end-clamped
cap of the claim, and the two coincide whenever the start's day-of-month
exists in the target month (e.g. Jan 31 + 2 months = Mar 31). -/
theorem c3_range_cap_amended (s e : CalDate) (hv : validDate s)
    (hse : dateDays s ≤ dateDays e) :
    (validateRange s e = some .rangeTooLarge ↔ jsCapDays s < dateDays e) ∧
    (dateDays e ≤ jsCapDays s → validateRange s e = none) ∧
    clampedCapDays s ≤ jsCapDays s ∧
    (s.d ≤ daysInMonth (s.y + ((s.m - 1 + 2) / 12 : Nat)) ((s.m - 1 + 2) % 12 + 1) →
      jsCapDays s = clampedCapDays s) := by
  refine ⟨?_, ?_, clampedCapDays_le_jsCapDays s hv, ?_⟩
  · unfold validateRange
    rw [if_neg (by omega)]
    constructor
    · intro h
      by_cases hc : jsCapDays s < dateDays e
      · exact hc
      · rw [if_neg hc] at h; cases h
    · intro h; rw [if_pos h]
  · intro h
    unfold validateRange
    rw [if_neg (by omega), if_neg (by omega)]
  · intro h
    exact jsCapDays_eq_clamped_of_fits s h hv.2.2.1

/-- Witness for C3: a window of exactly two months (Jan 15 to Mar 15) is
accepted. -/
theorem c3_range_cap_amended_witness :
    validateRange ⟨2024, 1, 15⟩ ⟨2024, 3, 15⟩ = none :=
  (c3_range_cap_amended ⟨2024, 1, 15⟩ ⟨2024, 3, 15⟩ (by decide) (by decide)).2.1
    (by decide)

/-- C4: when the start date is strictly after the end date, the run reports
`InvalidRange` (`시작 날짜가 종료 날짜보다 늦습니다.`) and returns before the
`git.log` fetch: no fetch is attempted, no Summarizer call is made, no file
is written and the file system is left untouched. -/
theorem c4_invalid_range_aborts (gitPath : String) (s e : CalDate)
    (author : Option String) (env : RunEnv) (fs0 : FS)
    (h : dateDays e < dateDays s) :
    main gitPath s e author env fs0 = ⟨.invalidRange, false, [], [], fs0⟩ := by
  unfold main validateRange
  rw [if_pos h]

/-- Witness for C4 at start 2024-01-02, end 2024-01-01. -/
theorem c4_invalid_range_aborts_witness :
    main "/repo" ⟨2024, 1, 2⟩ ⟨2024, 1, 1⟩ none sampleEnv []
      = ⟨.invalidRange, false, [], [], []⟩ :=
  c4_invalid_range_aborts "/repo" ⟨2024, 1, 2⟩ ⟨2024, 1, 1⟩ none sampleEnv []
    (by decide)

/-- C6: grouping is a partition — the bucket sizes of `groupByDate` sum to
the length of the input list (no commit dropped or duplicated), and no empty
bucket is ever created. -/
theorem c6_grouping_partition (cs : List CommitRecord) :
    ((groupByDate cs).map (fun b => b.2.length)).sum = cs.length ∧
    ∀ b ∈ groupByDate cs, b.2 ≠ [] :=
  ⟨sum_len_groupByDate cs, groupByDate_nonempty cs⟩

/-- Witness for C6 on the three sample commits (two buckets, sizes 2 + 1). -/
theorem c6_grouping_partition_witness :
    ((groupByDate [sampleCommit2, sampleCommit, sampleCommit3]).map
      (fun b => b.2.length)).sum = 3 ∧
    ("1970-01-02", [sampleCommit2, sampleCommit3]).2 ≠ [] :=
  ⟨(c6_grouping_partition [sampleCommit2, sampleCommit, sampleCommit3]).1.trans
      (by decide),
   (c6_grouping_partition [sampleCommit2, sampleCommit, sampleCommit3]).2
      ("1970-01-02", [sampleCommit2, sampleCommit3]) (by decide)⟩

/-- C8: when the `git.log` call returns zero commits (after validation
passed), the run ends with the successful `지정된 기간에 커밋이 없습니다.`
outcome: no error, no Summarizer call, no write attempt, file system
untouched. -/
theorem c8_empty_window (gitPath : String) (s e : CalDate)
    (author : Option String) (env : RunEnv) (fs0 : FS)
    (h1 : dateDays s ≤ dateDays e) (h2 : dateDays e ≤ jsCapDays s)
    (h3 : env.commits = .ok []) :
    main gitPath s e author env fs0 = ⟨.noCommits, true, [], [], fs0⟩ := by
  unfold main
  rw [validateRange_none s e h1 h2, h3]
  rfl

/-- Witness for C8 with an empty fetch result. -/
theorem c8_empty_window_witness :
    main "/repo" ⟨1970, 1, 1⟩ ⟨1970, 1, 2⟩ (some "홍길동")
      ⟨some "key", .ok [], fun _ => ⟨.error "unused", .error "unused"⟩, fun _ => true⟩ []
      = ⟨.noCommits, true, [], [], []⟩ :=
  c8_empty_window "/repo" ⟨1970, 1, 1⟩ ⟨1970, 1, 2⟩ (some "홍길동")
    ⟨some "key", .ok [], fun _ => ⟨.error "unused", .error "unused"⟩, fun _ => true⟩ []
    (by decide) (by decide) rfl

/-- C9: `generateMessage` rejects a missing or non-string prompt, rejects a
run without `OPENAI_API_KEY`, rejects a completion whose content is absent or
trims to the empty string, and every successful result is the trimmed,
necessarily non-empty content of the completion. -/
theorem c9_generateMessage_contract :
    (∀ (k : Option String) (r : Except String (Option String)),
      generateMessage .missing k r = .error "prompt는 문자열이어야 합니다.") ∧
    (∀ (k : Option String) (r : Except String (Option String)),
      generateMessage .nonString k r = .error "prompt는 문자열이어야 합니다.") ∧
    (∀ (s : String) (r : Except String (Option String)), s ≠ "" →
      generateMessage (.str s) none r
        = .error "환경변수 OPENAI_API_KEY가 설정되어 있지 않습니다.") ∧
    (∀ (p : PromptV) (k : Option String) (c : String), jsTrim c = "" →
      ∃ m, generateMessage p k (.ok (some c)) = .error m) ∧
    (∀ (p : PromptV) (k : Option String) (r : Except String (Option String))
      (t : String), generateMessage p k r = .ok t →
      t ≠ "" ∧ ∃ c, r = .ok (some c) ∧ t = jsTrim c) := by
  refine ⟨?_, ?_, ?_, ?_, ?_⟩
  · intro k r; rfl
  · intro k r; rfl
  · intro s r hs
    unfold generateMessage
    rw [if_neg (by simp [promptBad, hs]), if_pos (by simp [keyBad])]
  · intro p k c hc
    unfold generateMessage
    by_cases hp : promptBad p
    · rw [if_pos hp]; exact ⟨_, rfl⟩
    · rw [if_neg hp]
      by_cases hk : keyBad k
      · rw [if_pos hk]; exact ⟨_, rfl⟩
      · rw [if_neg hk]
        simp only
        rw [if_pos (by simp [hc])]
        exact ⟨_, rfl⟩
  · intro p k r t h
    unfold generateMessage at h
    by_cases hp : promptBad p
    · rw [if_pos hp] at h; cases h
    · rw [if_neg hp] at h
      by_cases hk : keyBad k
      · rw [if_pos hk] at h; cases h
      · rw [if_neg hk] at h
        match r with
        | .error e => cases h
        | .ok none => cases h
        | .ok (some c) =>
          simp only at h
          by_cases ht : jsTrim c == ""
          · rw [if_pos ht] at h; cases h
          · rw [if_neg ht] at h
            cases h
            exact ⟨by simpa using ht, c, rfl, rfl⟩

/-- Witness for C9: a missing API key is rejected, and a padded completion
is returned trimmed and non-empty. -/
theorem c9_generateMessage_contract_witness :
    generateMessage (.str "hi") none (.ok (some "x"))
      = .error "환경변수 OPENAI_API_KEY가 설정되어 있지 않습니다." ∧
    (("res" : String) ≠ "" ∧ ∃ c, (Except.ok (some "  res ") : Except String (Option String))
      = .ok (some c) ∧ "res" = jsTrim c) :=
  ⟨c9_generateMessage_contract.2.2.1 "hi" (.ok (some "x")) (by decide),
   c9_generateMessage_contract.2.2.2.2 (.str "hi") (some "k") (.ok (some "  res "))
     "res" (by decide)⟩

/-- C5: the grouping key of every commit is the first 10 characters (the
`YYYY-MM-DD` date component) of the UTC ISO-8601 rendering of its timestamp
(for timestamps in the four-digit-year range on which the rendering model is
faithful); every non-empty bucket holds exactly the commits of its key in the
order they appear in the fetched list (so within-day order matches VCS log
order); and grouping is a pure function of the input list, hence running it
twice on the same list yields the same buckets in the same order. -/
theorem c5_grouping_key_and_order (cs : List CommitRecord) :
    (∀ c : CommitRecord, msInRange c.dateMs →
      dateKey c = takeChars 10 (jsToISOString c.dateMs)) ∧
    (∀ k : String,
      bucketFor (groupByDate cs) k = none ∨
      bucketFor (groupByDate cs) k = some (cs.filter (fun c => dateKey c = k))) ∧
    (∀ cs' : List CommitRecord, cs' = cs → groupByDate cs' = groupByDate cs) := by
  refine ⟨?_, ?_, ?_⟩
  · intro c _
    exact (takeChars_jsToISOString c.dateMs).symm
  · intro k
    rw [bucketFor_groupByDate]
    split
    · exact Or.inl rfl
    · exact Or.inr rfl
  · intro cs' h
    rw [h]

/-- Witness for C5: the key of `sampleCommit` (timestamp 0) is the first 10
characters of `1970-01-01T00:00:00.000Z`, and the 1970-01-02 bucket of the
sample list holds its two commits in log order. -/
theorem c5_grouping_key_and_order_witness :
    dateKey sampleCommit = takeChars 10 (jsToISOString sampleCommit.dateMs) ∧
    bucketFor (groupByDate [sampleCommit2, sampleCommit, sampleCommit3]) "1970-01-02"
      = some ([sampleCommit2, sampleCommit, sampleCommit3].filter
          (fun c => dateKey c = "1970-01-02")) :=
  ⟨(c5_grouping_key_and_order []).1 sampleCommit (by decide),
   Or.resolve_left
     ((c5_grouping_key_and_order [sampleCommit2, sampleCommit, sampleCommit3]).2.1
       "1970-01-02")
     (by decide)⟩

/-- C10: after a successful fetch, the per-date reports are produced in the
order in which each calendar date first appears in the fetched commit list
(JS object insertion order for the non-index string keys of the grouping
map), and that sequence is a function of the fetched list alone — the same
list yields the same date sequence whatever the other collaborator outcomes
are. -/
theorem c10_processing_order (gitPath : String) (s e : CalDate)
    (author : Option String) (env : RunEnv) (fs0 : FS) (cs : List CommitRecord)
    (h1 : dateDays s ≤ dateDays e) (h2 : dateDays e ≤ jsCapDays s)
    (hc : env.commits = .ok cs) (hne : cs ≠ []) :
    ((main gitPath s e author env fs0).writes.map (fun a => a.date))
      = firstOcc [] (cs.map dateKey) ∧
    (∀ (env' : RunEnv) (fs0' : FS) (gitPath' : String), env'.commits = .ok cs →
      (main gitPath' s e author env' fs0').writes.map (fun a => a.date)
        = (main gitPath s e author env fs0).writes.map (fun a => a.date)) := by
  have hw : ∀ (g : String) (en : RunEnv) (f : FS), en.commits = .ok cs →
      (main g s e author en f).writes.map (fun a => a.date)
        = firstOcc [] (cs.map dateKey) := by
    intro g en f hcs
    rw [main_completed g s e author en f cs h1 h2 hcs hne]
    have : ((groupByDate cs).map (mkAttempt g en)).map (fun a => a.date)
        = keysOf (groupByDate cs) := by
      simp [keysOf, mkAttempt]
    simpa [this] using keysOf_groupByDate cs
  refine ⟨hw gitPath env fs0 hc, ?_⟩
  intro env' fs0' gitPath' hc'
  rw [hw gitPath env fs0 hc, hw gitPath' env' fs0' hc']

/-- Witness for C10 on the sample run: the fetched list visits 1970-01-02
first, then 1970-01-01, then 1970-01-02 again, so the reports are produced
for 1970-01-02 and then 1970-01-01 — first-appearance order, not
chronological order. -/
theorem c10_processing_order_witness :
    ((main "/repo" ⟨1970, 1, 1⟩ ⟨1970, 1, 2⟩ none sampleEnv []).writes.map
      (fun a => a.date)) = ["1970-01-02", "1970-01-01"] :=
  ((c10_processing_order "/repo" ⟨1970, 1, 1⟩ ⟨1970, 1, 2⟩ none sampleEnv []
      [sampleCommit2, sampleCommit, sampleCommit3]
      (by decide) (by decide) rfl (by decide)).1).trans (by decide)

/-- C7: after a successful fetch, every day bucket gives rise to exactly one
write attempt, in bucket order, to the path obtained by joining the
repository path with `commit-report-<calendarDate>.md`; whether an attempt
succeeds is determined by the write outcome of its own path alone, a failed
attempt leaves the remaining dates' attempts in place (the attempt list
always covers every bucket), and each successful write leaves the file's
content equal to the day's report body whatever the prior file-system state
held under that name (overwrite). -/
theorem c7_write_isolation (gitPath : String) (s e : CalDate)
    (author : Option String) (env : RunEnv) (fs0 : FS) (cs : List CommitRecord)
    (h1 : dateDays s ≤ dateDays e) (h2 : dateDays e ≤ jsCapDays s)
    (hc : env.commits = .ok cs) (hne : cs ≠ []) :
    (main gitPath s e author env fs0).writes.length = (groupByDate cs).length ∧
    (∀ a ∈ (main gitPath s e author env fs0).writes,
      a.path = pathJoin gitPath (fileNameOf a.date) ∧ a.ok = env.writeOk a.path) ∧
    (main gitPath s e author env fs0).writes.map (fun a => a.date)
      = keysOf (groupByDate cs) ∧
    (∀ a ∈ (main gitPath s e author env fs0).writes, a.ok = true →
      fsRead (main gitPath s e author env fs0).fs a.path = some a.body) := by
  rw [main_completed gitPath s e author env fs0 cs h1 h2 hc hne]
  refine ⟨by simp, ?_, by simp [keysOf, mkAttempt], ?_⟩
  · intro a ha
    obtain ⟨b, _, rfl⟩ := List.mem_map.mp ha
    exact ⟨rfl, rfl⟩
  · intro a ha hok
    exact applyWrites_read_ok ((groupByDate cs).map (mkAttempt gitPath env)) fs0
      (writes_paths_nodup gitPath env cs) a ha hok

/-- Witness for C7 on the sample run: both buckets are attempted even though
the write for 1970-01-01 fails, and the successful 1970-01-02 write replaces
the stale content that the file system already held under that report
name. -/
theorem c7_write_isolation_witness :
    (main "/repo" ⟨1970, 1, 1⟩ ⟨1970, 1, 2⟩ none sampleEnv
        [(pathJoin "/repo" (fileNameOf "1970-01-02"), "stale")]).writes.length = 2 ∧
    fsRead (main "/repo" ⟨1970, 1, 1⟩ ⟨1970, 1, 2⟩ none sampleEnv
        [(pathJoin "/repo" (fileNameOf "1970-01-02"), "stale")]).fs
        (mkAttempt "/repo" sampleEnv
          ("1970-01-02", [sampleCommit2, sampleCommit3])).path
      = some (mkAttempt "/repo" sampleEnv
          ("1970-01-02", [sampleCommit2, sampleCommit3])).body :=
  ⟨((c7_write_isolation "/repo" ⟨1970, 1, 1⟩ ⟨1970, 1, 2⟩ none sampleEnv
      [(pathJoin "/repo" (fileNameOf "1970-01-02"), "stale")]
      [sampleCommit2, sampleCommit, sampleCommit3]
      (by decide) (by decide) rfl (by decide)).1).trans (by decide),
   (c7_write_isolation "/repo" ⟨1970, 1, 1⟩ ⟨1970, 1, 2⟩ none sampleEnv
      [(pathJoin "/repo" (fileNameOf "1970-01-02"), "stale")]
      [sampleCommit2, sampleCommit, sampleCommit3]
      (by decide) (by decide) rfl (by decide)).2.2.2
      (mkAttempt "/repo" sampleEnv ("1970-01-02", [sampleCommit2, sampleCommit3]))
      (by decide) (by decide)⟩

/-- C1: per-commit failure isolation.  Over any fetched list of N commits,
the per-day entry lists contain N entries in total; exactly k of them carry
the error marking, where k is the number of commits whose summarization
fails (a `git show` failure, a Summarizer failure, or the Summarizer
returning no text — all surfacing as the caught error of `summarizeCommit`);
the other N − k entries are success entries carrying summary text; and the
run still completes, attempting one report per day bucket.  The embedding of
the per-commit loop is a total function, so a failing commit contributes its
error entry instead of a propagated exception. -/
theorem c1_failure_isolation (gitPath : String) (s e : CalDate)
    (author : Option String) (env : RunEnv) (fs0 : FS) (cs : List CommitRecord)
    (h1 : dateDays s ≤ dateDays e) (h2 : dateDays e ≤ jsCapDays s)
    (hc : env.commits = .ok cs) (hne : cs ≠ []) :
    ((groupByDate cs).map
      (fun b => (dayEntries env.apiKey b.2 env.commitEnv).length)).sum
      = cs.length ∧
    ((groupByDate cs).map
      (fun b => ((dayEntries env.apiKey b.2 env.commitEnv).filter
        (fun en => en.2)).length)).sum
      = (cs.filter (fun c => commitFails env.apiKey (env.commitEnv c))).length ∧
    ((groupByDate cs).map
      (fun b => ((dayEntries env.apiKey b.2 env.commitEnv).filter
        (fun en => !en.2)).length)).sum
      = cs.length
        - (cs.filter (fun c => commitFails env.apiKey (env.commitEnv c))).length ∧
    (main gitPath s e author env fs0).outcome = .completed ∧
    (main gitPath s e author env fs0).writes.length = (groupByDate cs).length := by
  refine ⟨?_, ?_, ?_, ?_, ?_⟩
  · simp only [dayEntries_length]
    exact sum_len_groupByDate cs
  · simp only [dayEntries_err_count]
    exact sum_countP_groupByDate _ cs
  · simp only [dayEntries_ok_count]
    rw [sum_countP_groupByDate (fun c => !commitFails env.apiKey (env.commitEnv c)) cs]
    have := filter_not_length (fun c => commitFails env.apiKey (env.commitEnv c)) cs
    omega
  · rw [main_completed gitPath s e author env fs0 cs h1 h2 hc hne]
  · rw [main_completed gitPath s e author env fs0 cs h1 h2 hc hne]
    simp

/-- Witness for C1 on the sample run: N = 3 commits, k = 1 failing
(`sampleCommit`, whose `git show` throws), so the day reports carry 3
entries, 1 error entry and 2 summary entries, and the run completes with one
write per bucket. -/
theorem c1_failure_isolation_witness :
    ((groupByDate [sampleCommit2, sampleCommit, sampleCommit3]).map
      (fun b => (dayEntries sampleEnv.apiKey b.2 sampleEnv.commitEnv).length)).sum
      = 3 ∧
    ((groupByDate [sampleCommit2, sampleCommit, sampleCommit3]).map
      (fun b => ((dayEntries sampleEnv.apiKey b.2 sampleEnv.commitEnv).filter
        (fun en => en.2)).length)).sum = 1 ∧
    ((groupByDate [sampleCommit2, sampleCommit, sampleCommit3]).map
      (fun b => ((dayEntries sampleEnv.apiKey b.2 sampleEnv.commitEnv).filter
        (fun en => !en.2)).length)).sum = 2 ∧
    (main "/repo" ⟨1970, 1, 1⟩ ⟨1970, 1, 2⟩ none sampleEnv []).outcome
      = .completed :=
  ⟨((c1_failure_isolation "/repo" ⟨1970, 1, 1⟩ ⟨1970, 1, 2⟩ none sampleEnv []
      [sampleCommit2, sampleCommit, sampleCommit3]
      (by decide) (by decide) rfl (by decide)).1).trans (by decide),
   ((c1_failure_isolation "/repo" ⟨1970, 1, 1⟩ ⟨1970, 1, 2⟩ none sampleEnv []
      [sampleCommit2, sampleCommit, sampleCommit3]
      (by decide) (by decide) rfl (by decide)).2.1).trans (by decide),
   ((c1_failure_isolation "/repo" ⟨1970, 1, 1⟩ ⟨1970, 1, 2⟩ none sampleEnv []
      [sampleCommit2, sampleCommit, sampleCommit3]
      (by decide) (by decide) rfl (by decide)).2.2.1).trans (by decide),
   (c1_failure_isolation "/repo" ⟨1970, 1, 1⟩ ⟨1970, 1, 2⟩ none sampleEnv []
      [sampleCommit2, sampleCommit, sampleCommit3]
      (by decide) (by decide) rfl (by decide)).2.2.2.1⟩

/-- Substring containment as a Boolean (character-list infix test). -/
def strContainsB (s pat : String) : Bool :=
  decide (pat.data <:+: s.data)

/-- C2, counterexample: the claim requires every commit entry — the failure
case included — to carry the full commit subject line and to be followed by
a horizontal separator.  For a bucket whose single commit fails, the
assembled body contains the visible error marking but neither the commit's
subject line nor any `---` separator: the error branch of the source appends
only the numbered heading and the error message. -/
theorem c2_counterexample :
    strContainsB
      (processDay (some "key") "1970-01-01" [sampleCommit]
        (fun _ => ⟨.error "boom", .ok none⟩))
      "initial commit" = false ∧
    strContainsB
      (processDay (some "key") "1970-01-01" [sampleCommit]
        (fun _ => ⟨.error "boom", .ok none⟩))
      "---" = false ∧
    strContainsB
      (processDay (some "key") "1970-01-01" [sampleCommit]
        (fun _ => ⟨.error "boom", .ok none⟩))
      " (오류 발생)" = true := by
  set_option maxRecDepth 10000 in decide

/-- C2, amended: the assembled body is the date title line and the count
line followed by the per-commit blocks in bucket order; there is one block
per commit; each block is the success block exactly when summarization
succeeded and the error block exactly when it failed; a success block
carries the 7-character abbreviated hash, the full subject line, the summary
text and a trailing horizontal separator, while an error block carries the
7-character abbreviated hash, the visible `(오류 발생)` marking and the error
message — with no subject line and no separator.  Assembly is a total pure
function of the bucket and the summarization outcomes. -/
theorem c2_report_body_format (apiKey : Option String) (date : String)
    (cs : List CommitRecord) (envOf : CommitRecord → CommitEnv) :
    processDay apiKey date cs envOf
      = dayHeader date cs.length
        ++ String.join ((dayEntries apiKey cs envOf).map Prod.fst) ∧
    (dayEntries apiKey cs envOf).length = cs.length ∧
    (∀ (i : Nat) (c : CommitRecord) (en : CommitEnv),
      (∃ su, summarizeCommit apiKey en = .ok su ∧
        processCommitEntry apiKey i c en = (okEntry i c su, false)) ∨
      (∃ m, summarizeCommit apiKey en = .error m ∧
        processCommitEntry apiKey i c en = (errEntry i c m, true))) ∧
    (∀ (i : Nat) (c : CommitRecord) (su : String),
      (hash7 c.hash).data <:+: (okEntry i c su).data ∧
      c.message.data <:+: (okEntry i c su).data ∧
      su.data <:+: (okEntry i c su).data ∧
      "---\n\n".data <:+ (okEntry i c su).data) ∧
    (∀ (i : Nat) (c : CommitRecord) (m : String),
      (hash7 c.hash).data <:+: (errEntry i c m).data ∧
      " (오류 발생)\n".data <:+: (errEntry i c m).data ∧
      m.data <:+: (errEntry i c m).data) := by
  refine ⟨rfl, dayEntries_length apiKey cs envOf, ?_, ?_, ?_⟩
  · intro i c en
    unfold processCommitEntry
    cases h : summarizeCommit apiKey en with
    | ok su => exact Or.inl ⟨su, rfl, rfl⟩
    | error m => exact Or.inr ⟨m, rfl, rfl⟩
  · intro i c su
    exact ⟨okEntry_contains_hash7 i c su, okEntry_contains_message i c su,
      okEntry_contains_summary i c su, okEntry_separator_suffix i c su⟩
  · intro i c m
    exact ⟨errEntry_contains_hash7 i c m, errEntry_contains_marker i c m,
      errEntry_contains_errmsg i c m⟩

end AICommitReporter
